import Mathlib

/-!
# go-jamf: a shallow embedding of `jamf.go`

The client of `jamf.go` builds one HTTP request per operation, sends it and
decodes the answer.  The operations are embedded as pure functions over an
explicit client value.  What the Go standard library contributes is made
explicit:

* `net/url.Parse` (the only way `http.NewRequest` fails here) is a parameter,
  `Stdlib.urlParse`;
* the network is the `httpClient` field of the client, a function from the
  request to the response or the error of `http.Client.Do`;
* `fmt.Sprintf`, `strconv.ParseInt`, and the struct decoding of
  `encoding/json` and `encoding/xml` are modelled for the verbs, kinds and
  struct types that `jamf.go` uses.

Go's `int` is taken to be 64 bits wide.  A nil slice and an empty slice are both
the empty list.  A pair `(value, error)` is a product whose second component is
`none` for a nil error.  The text of an error follows Go's, without positions
and quoting; no statement depends on it.
-/

set_option autoImplicit false

namespace Jamf

/-! ## Errors, panics -/

/-- A Go `error` value, identified by its message. -/
structure GoError where
  msg : String
  deriving DecidableEq, Repr

/-- How a Go call ends: it returns a value, or it panics with an error value. -/
inductive Outcome (α : Type) where
  | returned (a : α)
  | panicked (e : GoError)
  deriving DecidableEq, Repr

/-! ## `strconv`: decimal formatting and parsing -/

/-- The ASCII digit of `d < 10`. -/
def digitChar (d : Nat) : Char := Char.ofNat (48 + d)

/-- The loop of `strconv.formatBits` for base 10: the digits of `u` are pushed in front of `acc`,
least significant first.  `fuel` bounds the number of iterations; `u` itself is enough. -/
def formatBits : Nat → Nat → List Char → List Char
  | 0, u, acc => digitChar (u % 10) :: acc
  | fuel + 1, u, acc =>
    if 10 ≤ u then formatBits fuel (u / 10) (digitChar (u % 10) :: acc)
    else digitChar u :: acc

/-- Go's `strconv.FormatUint(u, 10)`. -/
def FormatUint (u : Nat) : String := ⟨formatBits u u []⟩

/-- Go's `strconv.FormatInt(i, 10)`: what the verb `%d` prints for an `int`. -/
def FormatInt (i : Int) : String :=
  if i < 0 then "-" ++ FormatUint i.natAbs else FormatUint i.natAbs

/-- Width of Go's `int` in bits. -/
def intSize : Nat := 64

/-- The value of an ASCII digit, `none` for any other character. -/
def digitVal (c : Char) : Option Nat :=
  if 48 ≤ c.toNat ∧ c.toNat ≤ 57 then some (c.toNat - 48) else none

/-- The digit loop of `strconv.ParseUint(s, 10, 64)`: a character that is no digit is a syntax error,
and the first step that leaves the 64-bit range is a range error. -/
def parseUintLoop (whole : String) : List Char → Nat → Except GoError Nat
  | [], n => .ok n
  | c :: cs, n =>
    match digitVal c with
    | none => .error ⟨"strconv.ParseInt: parsing " ++ whole ++ ": invalid syntax"⟩
    | some d =>
      if 2 ^ 64 ≤ n * 10 + d then
        .error ⟨"strconv.ParseInt: parsing " ++ whole ++ ": value out of range"⟩
      else parseUintLoop whole cs (n * 10 + d)

/-- Go's `strconv.ParseInt(s, 10, 64)`: an optional sign, then at least one digit, the value within
`[-2^63, 2^63 - 1]`. -/
def ParseInt (s : String) : Except GoError Int :=
  let syntaxErr : GoError := ⟨"strconv.ParseInt: parsing " ++ s ++ ": invalid syntax"⟩
  let rangeErr : GoError := ⟨"strconv.ParseInt: parsing " ++ s ++ ": value out of range"⟩
  match s.data with
  | [] => .error syntaxErr
  | c :: cs =>
    let neg := c == '-'
    let digits := if c == '+' ∨ c == '-' then cs else c :: cs
    match digits with
    | [] => .error syntaxErr
    | _ :: _ =>
      match parseUintLoop s digits 0 with
      | .error e => .error e
      | .ok un =>
        if ¬ neg ∧ 2 ^ (intSize - 1) ≤ un then .error rangeErr
        else if neg ∧ 2 ^ (intSize - 1) < un then .error rangeErr
        else .ok (if neg then - (un : Int) else (un : Int))

/-! ## `fmt.Sprintf` -/

/-- An operand of `fmt.Sprintf`. -/
inductive Arg where
  | str (s : String)
  | int (i : Int)
  | bool (b : Bool)

/-- Go's name of the operand's type, used in the bad-verb output. -/
def Arg.typeName : Arg → String
  | .str _ => "string"
  | .int _ => "int"
  | .bool _ => "bool"

/-- The operand in its default format (`%v`). -/
def Arg.default : Arg → String
  | .str s => s
  | .int i => FormatInt i
  | .bool b => if b then "true" else "false"

/-- One verb applied to one operand: `%s` prints a string, `%d` an integer in base 10, `%t` a
boolean, `%v` anything; any other pairing prints Go's bad-verb form `%!c(type=value)`. -/
def fmtVerb (c : Char) (a : Arg) : String :=
  match c, a with
  | 's', .str s => s
  | 'd', .int i => FormatInt i
  | 't', .bool b => if b then "true" else "false"
  | 'v', a => a.default
  | c, a => "%!" ++ String.singleton c ++ "(" ++ a.typeName ++ "=" ++ a.default ++ ")"

/-- Go's report of operands that no verb consumed. -/
def fmtExtra (args : List Arg) : String :=
  "%!(EXTRA " ++ ", ".intercalate (args.map fun a => a.typeName ++ "=" ++ a.default) ++ ")"

/-- The scan of `fmt.Sprintf` over the format, for verbs without flags, width or precision. -/
def sprintfAux : List Char → List Arg → String
  | [], [] => ""
  | [], a :: args => fmtExtra (a :: args)
  | ['%'], args => "%!(NOVERB)" ++ sprintfAux [] args
  | '%' :: '%' :: rest, args => "%" ++ sprintfAux rest args
  | '%' :: c :: rest, [] => "%!" ++ String.singleton c ++ "(MISSING)" ++ sprintfAux rest []
  | '%' :: c :: rest, a :: args => fmtVerb c a ++ sprintfAux rest args
  | c :: rest, args => String.singleton c ++ sprintfAux rest args

/-- Go's `fmt.Sprintf(format, args...)`. -/
def Sprintf (format : String) (args : List Arg) : String :=
  sprintfAux format.data args

/-! ## `net/http` -/

/-- An HTTP request as `jamf.go` builds it: the method, the URL, and the credentials that
`SetBasicAuth` puts into the `Authorization` header.  No request has a body. -/
structure Request where
  Method : String
  URL : String
  basicAuth : Option (String × String)
  deriving DecidableEq, Repr

/-- The method `req.SetBasicAuth(username, password)`. -/
def Request.SetBasicAuth (req : Request) (username password : String) : Request :=
  { req with basicAuth := some (username, password) }

/-- The part of the standard library that is not modelled but taken as given. -/
structure Stdlib where
  /-- The error of `net/url.Parse` on a raw URL, `none` when the URL parses. -/
  urlParse : String → Option GoError

/-- Go's `http.NewRequest(method, url, nil)` for the methods `"GET"` and `"POST"`: both are valid
methods, so the call fails exactly when the URL does not parse. -/
def NewRequest (lib : Stdlib) (method url : String) : Except GoError Request :=
  match lib.urlParse url with
  | some err => .error err
  | none => .ok { Method := method, URL := url, basicAuth := none }

/-! ## `encoding/xml`: tokens -/

/-- What `Decoder.rawToken` reads next from a body.  An empty-element tag is a start element
followed by its end element, as in Go.  The name of an element is its local name.  Attributes
and name spaces are left out: no field of the structs decoded here carries an `attr` tag or
names a name space, so `Unmarshal` ignores them. -/
inductive RawToken where
  | StartElement (name : String)
  | EndElement (name : String)
  | CharData (data : String)
  /-- A comment, a processing instruction or a directive. -/
  | Other
  /-- The tokenizer stops here with this error: the bytes at this point are not XML, or they
  declare a version other than 1.0 or an encoding other than UTF-8, or they use an entity
  that is not defined, or they close an element in another name space than it was opened in.
  Nothing after this point is read. -/
  | Invalid (err : GoError)
  deriving DecidableEq, Repr

/-- The tokens that `Decoder.Token` hands to `unmarshal`. -/
inductive Token where
  | StartElement (name : String)
  | EndElement (name : String)
  | CharData (data : String)
  | Other
  deriving DecidableEq, Repr

/-- The method `Decoder.Token` on a raw token, with `stk` the names of the open elements (innermost
first): a start element is pushed, an end element must close the innermost open element. -/
def nextToken (stk : List String) : RawToken → Except GoError (Token × List String)
  | .StartElement name => .ok (.StartElement name, name :: stk)
  | .EndElement name =>
    match stk with
    | [] => .error ⟨"XML syntax error: unexpected end element </" ++ name ++ ">"⟩
    | top :: stk' =>
      if top = name then .ok (.EndElement name, stk')
      else .error ⟨"XML syntax error: element <" ++ top ++ "> closed by </" ++ name ++ ">"⟩
  | .CharData data => .ok (.CharData data, stk)
  | .Other => .ok (.Other, stk)
  | .Invalid err => .error err

/-- The method `Decoder.Token` at the end of the input: `io.EOF`, or a syntax error when an element is
still open. -/
def tokenAtEOF (stk : List String) : GoError :=
  match stk with
  | [] => ⟨"EOF"⟩
  | _ :: _ => ⟨"XML syntax error: unexpected EOF"⟩

/-! ## The data model of `jamf.go` -/

/-- MobileDevice contains the ID and Name of the Devices in the Group. -/
structure MobileDevice where
  ID : Int
  Name : String
  deriving DecidableEq, Repr

/-- MobileDevices Struct found inside XMLResponseMobileDevicesGroups. -/
structure MobileDevices where
  Size : Int
  MobileDevice : List MobileDevice
  deriving DecidableEq, Repr

/-- XMLResponseMobileDeviceGroups is the XML returned when asking for the Devices in the
requested Group.  `XMLName` holds the local name of the root element. -/
structure XMLResponseMobileDeviceGroups where
  XMLName : String
  ID : Int
  MobileDevices : MobileDevices
  deriving DecidableEq, Repr

/-- The local type `tokenBody` of `GetTokenURL`. -/
structure tokenBody where
  Token : String
  Expires : Int
  deriving DecidableEq, Repr

/-! ## `encoding/xml`: `Unmarshal` into `XMLResponseMobileDeviceGroups`

`Decoder.unmarshal` is recursive in the nesting of the elements.  Each of its activations is a
loop that reads one token per iteration; the activations that are waiting are kept as a stack
of frames, so that one step of the machine below is one iteration of the innermost loop. -/

/-- Go's `unicode.IsSpace`. -/
def isSpace (c : Char) : Bool :=
  let n := c.toNat
  (9 ≤ n ∧ n ≤ 13) ∨ n = 32 ∨ n = 0x85 ∨ n = 0xA0 ∨ n = 0x1680 ∨ (0x2000 ≤ n ∧ n ≤ 0x200A) ∨
    n = 0x2028 ∨ n = 0x2029 ∨ n = 0x202F ∨ n = 0x205F ∨ n = 0x3000

/-- Go's `strings.TrimSpace`. -/
def TrimSpace (s : String) : String :=
  ⟨((s.data.dropWhile isSpace).reverse.dropWhile isSpace).reverse⟩

/-- The function `copyValue` into a destination of kind `int`: empty character data stores 0, anything else
goes through `strconv.ParseInt` after trimming. -/
def copyInt (src : String) : Except GoError Int :=
  if src.data = [] then .ok 0 else ParseInt (TrimSpace src)

/-- The three fields of kind `int`. -/
inductive IntField where
  /-- `XMLResponseMobileDeviceGroups.ID`, tag `id`. -/
  | groupID
  /-- `MobileDevices.Size`, tag `size`. -/
  | size
  /-- `MobileDevice.ID` of the slice's last element, tag `id`. -/
  | deviceID
  deriving DecidableEq, Repr

/-- An activation of `Decoder.unmarshal` or `Decoder.Skip`, waiting for its next token. -/
inductive Frame where
  /-- The outermost activation looks for the first start element. -/
  | findStart
  /-- The loop over the children of the root, the value a `XMLResponseMobileDeviceGroups`. -/
  | group
  /-- The loop over the children of `mobile_devices`, the value a `MobileDevices`. -/
  | mobileDevices
  /-- The loop over the children of a `mobile_device`, the value the slice's new last element. -/
  | mobileDevice
  /-- The loop of an `int` field, with the character data saved so far. -/
  | int (dst : IntField) (data : String)
  /-- The loop of the field `MobileDevice.Name`, with the character data saved so far. -/
  | name (data : String)
  /-- The loop of `Decoder.Skip`, with its depth counter. -/
  | skip (depth : Nat)
  deriving DecidableEq, Repr

/-- Apply `f` to the last element of a slice. -/
def setLast (f : MobileDevice → MobileDevice) : List MobileDevice → List MobileDevice
  | [] => []
  | [d] => [f d]
  | d :: d' :: ds => d :: setLast f (d' :: ds)

/-- The store `dst.SetInt(i)` for each of the three `int` fields. -/
def storeInt (v : XMLResponseMobileDeviceGroups) (i : Int) :
    IntField → XMLResponseMobileDeviceGroups
  | .groupID => { v with ID := i }
  | .size => { v with MobileDevices := { v.MobileDevices with Size := i } }
  | .deviceID => { v with MobileDevices := { v.MobileDevices with
      MobileDevice := setLast (fun d => { d with ID := i }) v.MobileDevices.MobileDevice } }

/-- The store `dst.SetString(s)` for the field `Name` of the slice's last element. -/
def storeName (v : XMLResponseMobileDeviceGroups) (s : String) : XMLResponseMobileDeviceGroups :=
  { v with MobileDevices := { v.MobileDevices with
      MobileDevice := setLast (fun d => { d with Name := s }) v.MobileDevices.MobileDevice } }

/-- The slice case of `unmarshal` before it recurs: the slice grows by one zero element. -/
def growSlice (v : XMLResponseMobileDeviceGroups) : XMLResponseMobileDeviceGroups :=
  { v with MobileDevices := { v.MobileDevices with
      MobileDevice := v.MobileDevices.MobileDevice ++ [{ ID := 0, Name := "" }] } }

/-- One iteration of the innermost loop: the frame `f` (with `fs` the frames below it) receives
`tok`.  The result is the value and the frames after the iteration, or the error that the
activation returns.

* A struct loop hands a start element to the field whose tag is the element's name
  (`unmarshalPath`) and skips the element when there is none; character data and comments
  are dropped; its end element ends the loop.
* The loop of an `int` or `string` field saves character data, skips child elements, and at
  its end element stores the data with `copyValue`.
* `Skip` counts start and end elements until its own end element. -/
def unmarshalStep (v : XMLResponseMobileDeviceGroups) (f : Frame) (fs : List Frame)
    (tok : Token) : Except GoError (XMLResponseMobileDeviceGroups × List Frame) :=
  match f, tok with
  | .findStart, .StartElement name =>
    if name = "mobile_device_group" then .ok ({ v with XMLName := name }, .group :: fs)
    else .error ⟨"expected element type <mobile_device_group> but have <" ++ name ++ ">"⟩
  | .findStart, _ => .ok (v, .findStart :: fs)
  | .group, .StartElement name =>
    if name = "id" then .ok (v, .int .groupID "" :: .group :: fs)
    else if name = "mobile_devices" then .ok (v, .mobileDevices :: .group :: fs)
    else .ok (v, .skip 0 :: .group :: fs)
  | .group, .EndElement _ => .ok (v, fs)
  | .group, _ => .ok (v, .group :: fs)
  | .mobileDevices, .StartElement name =>
    if name = "size" then .ok (v, .int .size "" :: .mobileDevices :: fs)
    else if name = "mobile_device" then .ok (growSlice v, .mobileDevice :: .mobileDevices :: fs)
    else .ok (v, .skip 0 :: .mobileDevices :: fs)
  | .mobileDevices, .EndElement _ => .ok (v, fs)
  | .mobileDevices, _ => .ok (v, .mobileDevices :: fs)
  | .mobileDevice, .StartElement name =>
    if name = "id" then .ok (v, .int .deviceID "" :: .mobileDevice :: fs)
    else if name = "name" then .ok (v, .name "" :: .mobileDevice :: fs)
    else .ok (v, .skip 0 :: .mobileDevice :: fs)
  | .mobileDevice, .EndElement _ => .ok (v, fs)
  | .mobileDevice, _ => .ok (v, .mobileDevice :: fs)
  | .int dst data, .StartElement _ => .ok (v, .skip 0 :: .int dst data :: fs)
  | .int dst data, .CharData s => .ok (v, .int dst (data ++ s) :: fs)
  | .int dst data, .Other => .ok (v, .int dst data :: fs)
  | .int dst data, .EndElement _ =>
    match copyInt data with
    | .error err => .error err
    | .ok i => .ok (storeInt v i dst, fs)
  | .name data, .StartElement _ => .ok (v, .skip 0 :: .name data :: fs)
  | .name data, .CharData s => .ok (v, .name (data ++ s) :: fs)
  | .name data, .Other => .ok (v, .name data :: fs)
  | .name data, .EndElement _ => .ok (storeName v data, fs)
  | .skip depth, .StartElement _ => .ok (v, .skip (depth + 1) :: fs)
  | .skip 0, .EndElement _ => .ok (v, fs)
  | .skip (depth + 1), .EndElement _ => .ok (v, .skip depth :: fs)
  | .skip depth, _ => .ok (v, .skip depth :: fs)

/-- The value after an error has been returned through all waiting activations: the slice case
resets the length of the slice (`v.SetLen(n)`), which drops the element in progress; everything
else that was stored stays. -/
def unwind (frames : List Frame) (v : XMLResponseMobileDeviceGroups) :
    XMLResponseMobileDeviceGroups :=
  if Frame.mobileDevice ∈ frames then
    { v with MobileDevices := { v.MobileDevices with
        MobileDevice := v.MobileDevices.MobileDevice.dropLast } }
  else v

/-- The decoder at work: `input` is what is left of the body, `stk` the open elements, `v` the
value under construction, `frames` the waiting activations (innermost first).  With no frame
left the outermost `unmarshal` has returned nil; the rest of the body is not read. -/
def unmarshalRun : List RawToken → List String → XMLResponseMobileDeviceGroups → List Frame →
    XMLResponseMobileDeviceGroups × Option GoError
  | _, _, v, [] => (v, none)
  | [], stk, v, f :: fs => (unwind (f :: fs) v, some (tokenAtEOF stk))
  | raw :: input, stk, v, f :: fs =>
    match nextToken stk raw with
    | .error err => (unwind (f :: fs) v, some err)
    | .ok (tok, stk') =>
      match unmarshalStep v f fs tok with
      | .error err => (unwind (f :: fs) v, some err)
      | .ok (v', frames') => unmarshalRun input stk' v' frames'

/-- Go's `xml.Unmarshal(body, &v)` for `v` of type `XMLResponseMobileDeviceGroups`: the value that
`v` holds afterwards and the error returned. -/
def xmlUnmarshal (body : List RawToken) (v : XMLResponseMobileDeviceGroups) :
    XMLResponseMobileDeviceGroups × Option GoError :=
  unmarshalRun body [] v [.findStart]

/-! ## `encoding/json`: `Unmarshal` into `tokenBody` -/

/-- A JSON text that passed the syntax check of `json.Unmarshal`.  A number keeps its literal. -/
inductive JSON where
  | null
  | bool (b : Bool)
  | number (literal : String)
  | string (s : String)
  | array (elems : List JSON)
  | object (members : List (String × JSON))

/-- The word for the kind of a JSON value in an `UnmarshalTypeError`. -/
def JSON.kind : JSON → String
  | .null => "null"
  | .bool _ => "bool"
  | .number _ => "number"
  | .string _ => "string"
  | .array _ => "array"
  | .object _ => "object"

/-- Case folding of `encoding/json` on the runes that can fold to an ASCII letter: the ASCII
letters themselves, U+017F (long s) and U+212A (Kelvin sign).  Every other rune folds to a rune
that is no ASCII letter and is left as it is. -/
def foldRune (c : Char) : Char :=
  if 97 ≤ c.toNat ∧ c.toNat ≤ 122 then Char.ofNat (c.toNat - 32)
  else if c.toNat = 0x17F then 'S'
  else if c.toNat = 0x212A then 'K'
  else c

/-- The function `foldName`, the key under which a name is looked up when no field has exactly that name. -/
def foldName (s : String) : String := ⟨s.data.map foldRune⟩

/-- The two fields of `tokenBody`. -/
inductive TokenField where
  | Token
  | Expires
  deriving DecidableEq, Repr

/-- The field of `tokenBody` for an object key: the field of exactly that name, else the
field whose name is the same after case folding, else none. -/
def findField (key : String) : Option TokenField :=
  if key = "Token" then some .Token
  else if key = "Expires" then some .Expires
  else if foldName key = foldName "Token" then some .Token
  else if foldName key = foldName "Expires" then some .Expires
  else none

/-- The `UnmarshalTypeError` for a value that does not fit its destination. -/
def typeError (val : JSON) (dst : String) : GoError :=
  ⟨"json: cannot unmarshal " ++ val.kind ++ " into Go " ++ dst⟩

/-- Store one member value into a field.  `null` leaves a string or an int as it is; a string
goes into `Token`; a number literal goes into `Expires` when `strconv.ParseInt` accepts it for
64 bits; anything else is a type error and the field is left as it is. -/
def storeField (tb : tokenBody) (f : TokenField) (val : JSON) : tokenBody × Option GoError :=
  match f, val with
  | _, .null => (tb, none)
  | .Token, .string s => ({ tb with Token := s }, none)
  | .Token, val => (tb, some (typeError val "struct field tokenBody.Token of type string"))
  | .Expires, .number literal =>
    match ParseInt literal with
    | .ok n => ({ tb with Expires := n }, none)
    | .error _ =>
      (tb, some ⟨"json: cannot unmarshal number " ++ literal ++
        " into Go struct field tokenBody.Expires of type int"⟩)
  | .Expires, val => (tb, some (typeError val "struct field tokenBody.Expires of type int"))

/-- The loop of `decodeState.object` over the members, in document order.  A member without a
field is skipped.  A type error does not stop the loop; the first one is kept (`saveError`). -/
def decodeObject : List (String × JSON) → tokenBody → Option GoError → tokenBody × Option GoError
  | [], tb, saved => (tb, saved)
  | (key, val) :: members, tb, saved =>
    match findField key with
    | none => decodeObject members tb saved
    | some f =>
      let (tb', err) := storeField tb f val
      decodeObject members tb' (saved.orElse fun _ => err)

/-- Go's `json.Unmarshal(body, &v)` for `v` of type `tokenBody`, on the outcome of the syntax check of
the body: a syntax error is returned before anything is stored; an object is decoded member by
member; `null` stores nothing; any other value is a type error. -/
def jsonUnmarshal (body : Except GoError JSON) (v : tokenBody) : tokenBody × Option GoError :=
  match body with
  | .error err => (v, some err)
  | .ok (.object members) => decodeObject members v none
  | .ok .null => (v, none)
  | .ok val => (v, some (typeError val "value of type jamf.tokenBody"))

/-! ## The client -/

/-- The bytes of a response body, as the two decoders see them: the raw tokens that
`encoding/xml` reads from them, and the outcome of the syntax check of `encoding/json`. -/
structure Payload where
  xml : List RawToken
  json : Except GoError JSON

/-- An HTTP response: the status code, and what `ioutil.ReadAll(resp.Body)` returns. -/
structure Response where
  StatusCode : Int
  Body : Except GoError Payload

/-- Client lets you execute commands via the Jamf Pro API.  The field `httpClient` is the
method `Do` of the `http.Client`: the response to a request, or the error of the round trip. -/
structure Client where
  BaseURL : String
  usr : String
  pw : String
  token : String
  httpClient : Request → Except GoError Response

/-- A channel of strings, as the list of the messages sent on it so far, oldest first.  A send
`c <- s` appends `s`: the receiver is taken to be there. -/
abbrev Chan := List String

/-- NewJamfClient requires BasicAuth to authenticate with JAMF Server.  `net` is the behaviour
of the zero `http.Client{}`. -/
def NewJamfClient (net : Request → Except GoError Response) (URL username password : String) :
    Client :=
  { BaseURL := URL, usr := username, pw := password, token := "", httpClient := net }

/-- GetTokenURL grabs the Token which lets you perform API Requests.  The first component is
the client after the call (the receiver is a pointer). -/
def GetTokenURL (lib : Stdlib) (j : Client) : Client × Outcome (String × Option GoError) :=
  let URL := Sprintf "%s/uapi/auth/tokens" [.str j.BaseURL]
  match NewRequest lib "POST" URL with
  | .error err => (j, .returned ("", some err))
  | .ok req =>
    let req := req.SetBasicAuth j.usr j.pw
    match j.httpClient req with
    | .error err => (j, .returned ("", some err))
    | .ok resp =>
      match resp.Body with
      | .error err => (j, .returned ("", some err))
      | .ok body =>
        match jsonUnmarshal body.json { Token := "", Expires := 0 } with
        | (_, some err) => (j, .panicked err)
        | (tokenResponse, none) => (j, .returned (tokenResponse.Token, none))

/-- GetDevicesInGroup takes in a group ID as a string.  The error of `xml.Unmarshal` is
dropped. -/
def GetDevicesInGroup (lib : Stdlib) (j : Client) (g : String) :
    Client × (List MobileDevice × Option GoError) :=
  let URL := Sprintf "%s/JSSResource/mobiledevicegroups/id/%s" [.str j.BaseURL, .str g]
  match NewRequest lib "GET" URL with
  | .error err => (j, ([], some err))
  | .ok req =>
    let req := req.SetBasicAuth j.usr j.pw
    match j.httpClient req with
    | .error err => (j, ([], some err))
    | .ok resp =>
      match resp.Body with
      | .error err => (j, ([], some err))
      | .ok body =>
        let v := (xmlUnmarshal body.xml
          { XMLName := "", ID := 0, MobileDevices := { Size := 0, MobileDevice := [] } }).1
        (j, (v.MobileDevices.MobileDevice, none))

/-- RestartDevice takes in the ID of a device that will be restarted. -/
def RestartDevice (lib : Stdlib) (j : Client) (d : Int) : Client × (Int × Option GoError) :=
  let URL := Sprintf "%s/JSSResource/mobiledevicecommands/command/RestartDevice/id/%d"
    [.str j.BaseURL, .int d]
  match NewRequest lib "POST" URL with
  | .error err => (j, (500, some err))
  | .ok req =>
    let req := req.SetBasicAuth j.usr j.pw
    match j.httpClient req with
    | .error err => (j, (500, some err))
    | .ok resp => (j, (resp.StatusCode, none))

/-- RestartDeviceChannel restarts the device `d` and reports on the channel `c`.  The second
component is the channel after the call. -/
def RestartDeviceChannel (lib : Stdlib) (j : Client) (d : MobileDevice) (c : Chan) :
    Client × Chan :=
  let URL := Sprintf "%s/JSSResource/mobiledevicecommands/command/RestartDevice/id/%d"
    [.str j.BaseURL, .int d.ID]
  let success := false
  let res := Sprintf "%d - %s restart: %t" [.int d.ID, .str d.Name, .bool success]
  match NewRequest lib "POST" URL with
  | .error _ => (j, c ++ [res])
  | .ok req =>
    let req := req.SetBasicAuth j.usr j.pw
    match j.httpClient req with
    | .error _ => (j, c ++ [res])
    | .ok resp =>
      let success := true
      let res := Sprintf "%d - %s restart: %t, status code: %d"
        [.int d.ID, .str d.Name, .bool success, .int resp.StatusCode]
      (j, c ++ [res])

/-! ## Vocabulary of the statements

The operations above spell out the calls `http.NewRequest`, `SetBasicAuth`, `Do` and `ReadAll`
one by one, as the source does.  The statements below speak of them together. -/

/-- The request of an operation from its construction to the response: the error of
`http.NewRequest`, else what `Do` answers to the request with the client's credentials. -/
def roundTrip (lib : Stdlib) (j : Client) (method URL : String) : Except GoError Response :=
  match NewRequest lib method URL with
  | .error err => .error err
  | .ok req => j.httpClient (req.SetBasicAuth j.usr j.pw)

/-- The transport of an operation that reads the body: the error of the construction, of the
send or of the read, else the body. -/
def readBody (lib : Stdlib) (j : Client) (method URL : String) : Except GoError Payload :=
  match roundTrip lib j method URL with
  | .error err => .error err
  | .ok resp => resp.Body

/-- The URL of the token endpoint. -/
def tokenURL (j : Client) : String := j.BaseURL ++ "/uapi/auth/tokens"

/-- The URL of the group endpoint. -/
def groupURL (j : Client) (g : String) : String :=
  j.BaseURL ++ "/JSSResource/mobiledevicegroups/id/" ++ g

/-- The URL of the restart endpoint. -/
def restartURL (j : Client) (d : Int) : String :=
  j.BaseURL ++ "/JSSResource/mobiledevicecommands/command/RestartDevice/id/" ++ FormatInt d

/-- The zero value of `XMLResponseMobileDeviceGroups`. -/
def zeroGroup : XMLResponseMobileDeviceGroups :=
  { XMLName := "", ID := 0, MobileDevices := { Size := 0, MobileDevice := [] } }

/-- A standard library whose `url.Parse` accepts every URL. -/
def anyURL : Stdlib := { urlParse := fun _ => none }

/-- A standard library whose `url.Parse` rejects every URL. -/
def noURL : Stdlib := { urlParse := fun _ => some ⟨"parse: invalid URL"⟩ }

/-- A client on a network that answers every request with `resp`. -/
def answering (resp : Response) : Client :=
  NewJamfClient (fun _ => .ok resp) "https://jamf.example" "admin" "secret"

/-- A client on a network where every round trip fails with `err`. -/
def unreachable (err : GoError) : Client :=
  NewJamfClient (fun _ => .error err) "https://jamf.example" "admin" "secret"

/-- A body that is neither JSON nor XML. -/
def garbage : Payload :=
  { xml := [.Invalid ⟨"XML syntax error"⟩], json := .error ⟨"invalid character"⟩ }

/-! ## Documents

The group documents of the claims, described on the raw tokens of the body. -/

/-- Character data, a comment, a processing instruction or a directive. -/
def RawToken.isFiller : RawToken → Bool
  | .CharData _ => true
  | .Other => true
  | _ => false

/-- The character data of a token sequence, concatenated. -/
def textOf : List RawToken → String
  | [] => ""
  | .CharData s :: rest => s ++ textOf rest
  | _ :: rest => textOf rest

/-- The content of an element that holds text only. -/
def IsText (content : List RawToken) : Prop := ∀ t ∈ content, t.isFiller = true

/-- The text of an `int` element reads as the Go `int` `i`: after trimming it is a decimal
numeral, with or without sign, of a value within `[-2^63, 2^63 - 1]`. -/
def ReadsAsInt (content : List RawToken) (i : Int) : Prop :=
  IsText content ∧ ParseInt (TrimSpace (textOf content)) = .ok i

/-- A sequence of complete nodes: fillers and elements whose tags match, properly nested. -/
inductive Balanced : List RawToken → Prop where
  | nil : Balanced []
  | filler (t : RawToken) (rest : List RawToken) :
      t.isFiller = true → Balanced rest → Balanced (t :: rest)
  | element (name : String) (content rest : List RawToken) :
      Balanced content → Balanced rest →
      Balanced (.StartElement name :: content ++ .EndElement name :: rest)

/-- The children of one `mobile_device` element: at most one `id` element, which reads as the
integer `id`, at most one `name` element with the text `name`, and any number of fillers and
of elements of other names. -/
inductive DeviceContent : List RawToken → Option Int → Option String → Prop where
  | nil : DeviceContent [] none none
  | filler (t : RawToken) (rest : List RawToken) (id : Option Int) (name : Option String) :
      t.isFiller = true → DeviceContent rest id name → DeviceContent (t :: rest) id name
  | id (content rest : List RawToken) (i : Int) (name : Option String) :
      ReadsAsInt content i → DeviceContent rest none name →
      DeviceContent (.StartElement "id" :: content ++ .EndElement "id" :: rest) (some i) name
  | name (content rest : List RawToken) (id : Option Int) :
      IsText content → DeviceContent rest id none →
      DeviceContent (.StartElement "name" :: content ++ .EndElement "name" :: rest)
        id (some (textOf content))
  | other (tag : String) (content rest : List RawToken) (id : Option Int)
      (name : Option String) :
      tag ≠ "id" → tag ≠ "name" → Balanced content → DeviceContent rest id name →
      DeviceContent (.StartElement tag :: content ++ .EndElement tag :: rest) id name

/-- The children of one `mobile_devices` element, with the devices that its `mobile_device`
elements describe, in document order.  Each `mobile_device` has an `id` and a `name`; a `size`
element reads as an integer; elements of other names are arbitrary. -/
inductive DevicesContent : List RawToken → List MobileDevice → Prop where
  | nil : DevicesContent [] []
  | filler (t : RawToken) (rest : List RawToken) (ds : List MobileDevice) :
      t.isFiller = true → DevicesContent rest ds → DevicesContent (t :: rest) ds
  | size (content rest : List RawToken) (n : Int) (ds : List MobileDevice) :
      ReadsAsInt content n → DevicesContent rest ds →
      DevicesContent (.StartElement "size" :: content ++ .EndElement "size" :: rest) ds
  | device (content rest : List RawToken) (i : Int) (name : String) (ds : List MobileDevice) :
      DeviceContent content (some i) (some name) → DevicesContent rest ds →
      DevicesContent
        (.StartElement "mobile_device" :: content ++ .EndElement "mobile_device" :: rest)
        (⟨i, name⟩ :: ds)
  | other (tag : String) (content rest : List RawToken) (ds : List MobileDevice) :
      tag ≠ "size" → tag ≠ "mobile_device" → Balanced content → DevicesContent rest ds →
      DevicesContent (.StartElement tag :: content ++ .EndElement tag :: rest) ds

/-- The children of the root element `mobile_device_group`, with the devices of its
`mobile_devices` elements in document order.  An `id` element reads as an integer; elements
of other names are arbitrary. -/
inductive GroupContent : List RawToken → List MobileDevice → Prop where
  | nil : GroupContent [] []
  | filler (t : RawToken) (rest : List RawToken) (ds : List MobileDevice) :
      t.isFiller = true → GroupContent rest ds → GroupContent (t :: rest) ds
  | id (content rest : List RawToken) (n : Int) (ds : List MobileDevice) :
      ReadsAsInt content n → GroupContent rest ds →
      GroupContent (.StartElement "id" :: content ++ .EndElement "id" :: rest) ds
  | devices (content rest : List RawToken) (ds ds' : List MobileDevice) :
      DevicesContent content ds → GroupContent rest ds' →
      GroupContent
        (.StartElement "mobile_devices" :: content ++ .EndElement "mobile_devices" :: rest)
        (ds ++ ds')
  | other (tag : String) (content rest : List RawToken) (ds : List MobileDevice) :
      tag ≠ "id" → tag ≠ "mobile_devices" → Balanced content → GroupContent rest ds →
      GroupContent (.StartElement tag :: content ++ .EndElement tag :: rest) ds

/-- A body that is a group document with the devices `ds`: fillers, then the root element
`mobile_device_group` with its children, then whatever follows the root. -/
def IsGroupDocument (body : List RawToken) (ds : List MobileDevice) : Prop :=
  ∃ prolog content trailer,
    body = prolog ++ .StartElement "mobile_device_group" :: content
      ++ .EndElement "mobile_device_group" :: trailer ∧
    IsText prolog ∧ GroupContent content ds

/-- The values of Go's `int`. -/
def IsGoInt (i : Int) : Prop := -2 ^ 63 ≤ i ∧ i < 2 ^ 63

/-- A JSON number that is written as the integer `n`: an optional minus sign and digits, with
no fraction and no exponent.  These are the decimal numerals of the integers, and `-0`. -/
def IsIntLiteral (literal : String) (n : Int) : Prop :=
  literal = FormatInt n ∨ (literal = "-0" ∧ n = 0)

/-- The members of a token object: at most one member named `Token`, a string, at most one
member named `Expires`, a number written as an integer of Go's `int`, and any number of
members whose name is not the name of a field, whatever the case of its letters. -/
inductive TokenObject : List (String × JSON) → Option String → Option Int → Prop where
  | nil : TokenObject [] none none
  | other (key : String) (val : JSON) (rest : List (String × JSON)) (tok : Option String)
      (exp : Option Int) :
      foldName key ≠ "TOKEN" → foldName key ≠ "EXPIRES" → TokenObject rest tok exp →
      TokenObject ((key, val) :: rest) tok exp
  | token (s : String) (rest : List (String × JSON)) (exp : Option Int) :
      TokenObject rest none exp → TokenObject (("Token", .string s) :: rest) (some s) exp
  | expires (literal : String) (n : Int) (rest : List (String × JSON)) (tok : Option String) :
      IsIntLiteral literal n → IsGoInt n → TokenObject rest tok none →
      TokenObject (("Expires", .number literal) :: rest) tok (some n)

/-- The value `v` with another slice of devices. -/
def withDevices (v : XMLResponseMobileDeviceGroups) (ds : List MobileDevice) :
    XMLResponseMobileDeviceGroups :=
  { v with MobileDevices := { v.MobileDevices with MobileDevice := ds } }

/-- An element with text content. -/
def textElement (tag text : String) : List RawToken :=
  [.StartElement tag, .CharData text, .EndElement tag]

/-- A `mobile_device` element with an `id` and a `name` child. -/
def deviceElement (id name : String) : List RawToken :=
  .StartElement "mobile_device" :: textElement "id" id ++ textElement "name" name
    ++ [.EndElement "mobile_device"]

/-- The body `\x7b"Token":"abc","Expires":3600\x7d`. -/
def tokenPayload : Payload :=
  { xml := [.CharData "\x7b\"Token\":\"abc\",\"Expires\":3600\x7d"],
    json := .ok (.object [("Token", .string "abc"), ("Expires", .number "3600")]) }

/-- The body `\x7b"Token":"abc","Expires":3600.0\x7d`. -/
def fractionExpiresPayload : Payload :=
  { xml := [.CharData "\x7b\"Token\":\"abc\",\"Expires\":3600.0\x7d"],
    json := .ok (.object [("Token", .string "abc"), ("Expires", .number "3600.0")]) }

/-- The body `\x7b"Token":"abc","Expires":9223372036854775808\x7d`; the number is 2^63. -/
def largeExpiresPayload : Payload :=
  { xml := [.CharData "\x7b\"Token\":\"abc\",\"Expires\":9223372036854775808\x7d"],
    json := .ok (.object [("Token", .string "abc"),
      ("Expires", .number "9223372036854775808")]) }

/-- The `mobile_device` elements that a server writes for the devices `ds`. -/
def renderDevices : List MobileDevice → List RawToken
  | [] => []
  | d :: ds => deviceElement (FormatInt d.ID) d.Name ++ renderDevices ds

/-- The group document that a server writes for the group `id` with the devices `ds`: every
number as its decimal numeral. -/
def renderGroup (id : Int) (ds : List MobileDevice) : List RawToken :=
  .StartElement "mobile_device_group" :: textElement "id" (FormatInt id)
    ++ .StartElement "mobile_devices" :: textElement "size" (FormatInt ds.length)
    ++ renderDevices ds
    ++ [.EndElement "mobile_devices", .EndElement "mobile_device_group"]

/-! ## The URLs -/

theorem Sprintf_tokenURL (j : Client) :
    Sprintf "%s/uapi/auth/tokens" [.str j.BaseURL] = tokenURL j := by
  simp [Sprintf, sprintfAux, fmtVerb, tokenURL, String.ext_iff]

theorem Sprintf_groupURL (j : Client) (g : String) :
    Sprintf "%s/JSSResource/mobiledevicegroups/id/%s" [.str j.BaseURL, .str g] = groupURL j g := by
  simp [Sprintf, sprintfAux, fmtVerb, groupURL, String.ext_iff]

theorem Sprintf_restartURL (j : Client) (d : Int) :
    Sprintf "%s/JSSResource/mobiledevicecommands/command/RestartDevice/id/%d"
      [.str j.BaseURL, .int d] = restartURL j d := by
  simp [Sprintf, sprintfAux, fmtVerb, restartURL, String.ext_iff]

theorem Sprintf_failure (i : Int) (n : String) :
    Sprintf "%d - %s restart: %t" [.int i, .str n, .bool false]
      = FormatInt i ++ " - " ++ n ++ " restart: false" := by
  simp [Sprintf, sprintfAux, fmtVerb, String.ext_iff]

theorem Sprintf_success (i : Int) (n : String) (code : Int) :
    Sprintf "%d - %s restart: %t, status code: %d" [.int i, .str n, .bool true, .int code]
      = FormatInt i ++ " - " ++ n ++ " restart: true, status code: " ++ FormatInt code := by
  simp [Sprintf, sprintfAux, fmtVerb, String.ext_iff]

/-! ## Restart -/

/-- C1: when the round trip of the restart request completes with a response, `RestartDevice`
returns the status code of that response and a nil error, whatever the code is. -/
theorem RestartDevice_returns_status (lib : Stdlib) (j : Client) (d : Int) (resp : Response)
    (h : roundTrip lib j "POST" (restartURL j d) = .ok resp) :
    (RestartDevice lib j d).2 = (resp.StatusCode, none) := by
  unfold roundTrip at h
  unfold RestartDevice
  simp only [Sprintf_restartURL]
  cases hreq : NewRequest lib "POST" (restartURL j d) with
  | error err => simp [hreq] at h
  | ok req => simp only [hreq] at h; simp [h]

/-- A server that answers 500: `RestartDevice` returns that 500 and no error. -/
theorem RestartDevice_returns_status_witness :
    roundTrip anyURL (answering ⟨500, .ok garbage⟩) "POST"
        (restartURL (answering ⟨500, .ok garbage⟩) 7) = .ok ⟨500, .ok garbage⟩ ∧
      (RestartDevice anyURL (answering ⟨500, .ok garbage⟩) 7).2 = (500, none) :=
  ⟨rfl, RestartDevice_returns_status anyURL (answering ⟨500, .ok garbage⟩) 7 ⟨500, .ok garbage⟩ rfl⟩

/-- C2: when building or sending the restart request fails with `e`, `RestartDevice` returns
the code 500 together with `e`. -/
theorem RestartDevice_transport_failure (lib : Stdlib) (j : Client) (d : Int) (e : GoError)
    (h : roundTrip lib j "POST" (restartURL j d) = .error e) :
    (RestartDevice lib j d).2 = (500, some e) := by
  unfold roundTrip at h
  unfold RestartDevice
  simp only [Sprintf_restartURL]
  cases hreq : NewRequest lib "POST" (restartURL j d) with
  | error err => simp only [hreq] at h; cases h; rfl
  | ok req => simp only [hreq] at h; simp [h]

/-- The send fails on an unreachable network: 500 and the error of the send. -/
theorem RestartDevice_transport_failure_witness :
    roundTrip anyURL (unreachable ⟨"dial tcp: no route to host"⟩) "POST"
        (restartURL (unreachable ⟨"dial tcp: no route to host"⟩) 7)
        = .error ⟨"dial tcp: no route to host"⟩ ∧
      (RestartDevice anyURL (unreachable ⟨"dial tcp: no route to host"⟩) 7).2
        = (500, some ⟨"dial tcp: no route to host"⟩) :=
  ⟨rfl, RestartDevice_transport_failure anyURL _ 7 _ rfl⟩

/-- The message that `RestartDeviceChannel` composes for the outcome of the round trip. -/
theorem RestartDeviceChannel_eq (lib : Stdlib) (j : Client) (d : MobileDevice) (c : Chan) :
    RestartDeviceChannel lib j d c = (j, c ++ [
      match roundTrip lib j "POST" (restartURL j d.ID) with
      | .error _ => FormatInt d.ID ++ " - " ++ d.Name ++ " restart: false"
      | .ok resp => FormatInt d.ID ++ " - " ++ d.Name ++ " restart: true, status code: "
          ++ FormatInt resp.StatusCode]) := by
  unfold RestartDeviceChannel roundTrip
  simp only [Sprintf_restartURL, Sprintf_failure, Sprintf_success]
  cases h : NewRequest lib "POST" (restartURL j d.ID) with
  | error err => rfl
  | ok req =>
    cases h2 : j.httpClient (req.SetBasicAuth j.usr j.pw) with
    | error err => simp only [h2]
    | ok resp => simp only [h2]

/-- C3: whatever happens to the request, `RestartDeviceChannel` sends exactly one message: the
channel afterwards is the channel before with one message appended. -/
theorem RestartDeviceChannel_sends_once (lib : Stdlib) (j : Client) (d : MobileDevice)
    (c : Chan) :
    (∃ msg, (RestartDeviceChannel lib j d c).2 = c ++ [msg]) ∧
      (RestartDeviceChannel lib j d c).2.length = c.length + 1 := by
  rw [RestartDeviceChannel_eq]
  exact ⟨⟨_, rfl⟩, by simp⟩

/-- C4: the message of `RestartDeviceChannel` is `<id> - <name> restart: false` when building or
sending the request fails, and `<id> - <name> restart: true, status code: <code>` when a
response arrives, whatever its status code; for the device with ID 1 and name `x` the latter
reads `1 - x restart: true, status code: <code>`. -/
theorem RestartDeviceChannel_message (lib : Stdlib) (j : Client) (d : MobileDevice) (c : Chan) :
    (∀ e, roundTrip lib j "POST" (restartURL j d.ID) = .error e →
        (RestartDeviceChannel lib j d c).2
          = c ++ [FormatInt d.ID ++ " - " ++ d.Name ++ " restart: false"]) ∧
    (∀ resp, roundTrip lib j "POST" (restartURL j d.ID) = .ok resp →
        (RestartDeviceChannel lib j d c).2
          = c ++ [FormatInt d.ID ++ " - " ++ d.Name ++ " restart: true, status code: "
              ++ FormatInt resp.StatusCode]) ∧
    (∀ resp, roundTrip lib j "POST" (restartURL j 1) = .ok resp →
        (RestartDeviceChannel lib j ⟨1, "x"⟩ c).2
          = c ++ ["1 - x restart: true, status code: " ++ FormatInt resp.StatusCode]) := by
  refine ⟨fun e h => ?_, fun resp h => ?_, fun resp h => ?_⟩
  · rw [RestartDeviceChannel_eq, h]
  · rw [RestartDeviceChannel_eq, h]
  · rw [RestartDeviceChannel_eq, h]
    have h1 : FormatInt 1 = "1" := by decide
    simp [h1, String.ext_iff]

/-- Status 404 and a failed send, for the device with ID 1 and name `x`. -/
theorem RestartDeviceChannel_message_witness :
    (RestartDeviceChannel anyURL (answering ⟨404, .ok garbage⟩) ⟨1, "x"⟩ []).2
        = ["1 - x restart: true, status code: 404"] ∧
      (RestartDeviceChannel anyURL (unreachable ⟨"timeout"⟩) ⟨1, "x"⟩ []).2
        = ["1 - x restart: false"] :=
  ⟨((RestartDeviceChannel_message anyURL (answering ⟨404, .ok garbage⟩) ⟨1, "x"⟩ []).2.2
      ⟨404, .ok garbage⟩ rfl).trans (by decide),
   ((RestartDeviceChannel_message anyURL (unreachable ⟨"timeout"⟩) ⟨1, "x"⟩ []).1
      ⟨"timeout"⟩ rfl).trans (by decide)⟩

/-! ## Decimal numerals -/

theorem digitVal_digitChar (d : Nat) (h : d < 10) : digitVal (digitChar d) = some d := by
  interval_cases d <;> decide

theorem digitChar_not_sign (d : Nat) (h : d < 10) :
    (digitChar d == '+') = false ∧ (digitChar d == '-') = false := by
  interval_cases d <;> decide

theorem digitChar_not_space (d : Nat) (h : d < 10) : isSpace (digitChar d) = false := by
  interval_cases d <;> decide

/-- The digit loop reads back what `formatBits` wrote: the digits of `u` in front of `acc`
take the accumulator from `n` to `n * 10 ^ k + u`, with `k` the number of digits. -/
theorem parseUintLoop_formatBits (whole : String) :
    ∀ (fuel u : Nat) (acc : List Char), u ≤ fuel →
      ∃ k, ∀ n, n * 10 ^ k + u < 2 ^ 64 →
        parseUintLoop whole (formatBits fuel u acc) n
          = parseUintLoop whole acc (n * 10 ^ k + u) := by
  intro fuel
  induction fuel with
  | zero =>
    intro u acc hu
    have : u = 0 := by omega
    subst this
    refine ⟨1, fun n hn => ?_⟩
    simp only [formatBits, parseUintLoop, Nat.zero_mod, digitVal_digitChar 0 (by decide)]
    rw [if_neg (by omega)]
    simp
  | succ fuel ih =>
    intro u acc hu
    by_cases h10 : 10 ≤ u
    · obtain ⟨k, hk⟩ := ih (u / 10) (digitChar (u % 10) :: acc) (by omega)
      refine ⟨k + 1, fun n hn => ?_⟩
      have e : n * 10 ^ (k + 1) + u = (n * 10 ^ k + u / 10) * 10 + u % 10 := by
        rw [pow_succ]; have := Nat.div_add_mod u 10; ring_nf; omega
      simp only [formatBits, if_pos h10]
      rw [hk n (by omega)]
      simp only [parseUintLoop, digitVal_digitChar (u % 10) (Nat.mod_lt _ (by decide))]
      rw [if_neg (by omega), e]
    · refine ⟨1, fun n hn => ?_⟩
      simp only [formatBits, if_neg h10, parseUintLoop,
        digitVal_digitChar u (by omega)]
      rw [if_neg (by omega)]
      simp

/-- What `formatBits` writes in front of `acc` is a sequence of digits, and not empty. -/
theorem formatBits_digits :
    ∀ (fuel u : Nat) (acc : List Char), ∃ ds : List Char,
      formatBits fuel u acc = ds ++ acc ∧ ds ≠ [] ∧ ∀ c ∈ ds, ∃ d, d < 10 ∧ c = digitChar d := by
  intro fuel
  induction fuel with
  | zero =>
    intro u acc
    exact ⟨[digitChar (u % 10)], rfl, by simp, by
      intro c hc
      simp only [List.mem_singleton] at hc
      exact ⟨u % 10, Nat.mod_lt _ (by decide), hc⟩⟩
  | succ fuel ih =>
    intro u acc
    by_cases h10 : 10 ≤ u
    · obtain ⟨ds, hds, _, hdig⟩ := ih (u / 10) (digitChar (u % 10) :: acc)
      refine ⟨ds ++ [digitChar (u % 10)], ?_, by simp, ?_⟩
      · simp only [formatBits, if_pos h10, hds, List.append_assoc, List.singleton_append]
      · intro c hc
        rcases List.mem_append.1 hc with h | h
        · exact hdig c h
        · simp only [List.mem_singleton] at h
          exact ⟨u % 10, Nat.mod_lt _ (by decide), h⟩
    · refine ⟨[digitChar u], by simp [formatBits, h10], by simp, ?_⟩
      intro c hc
      simp only [List.mem_singleton] at hc
      exact ⟨u, by omega, hc⟩

/-- The digit loop reads `FormatUint u` back as `u`. -/
theorem parseUintLoop_FormatUint (whole : String) (u : Nat) (hu : u < 2 ^ 64) :
    parseUintLoop whole (FormatUint u).data 0 = .ok u := by
  obtain ⟨k, hk⟩ := parseUintLoop_formatBits whole u u [] (le_refl u)
  have := hk 0 (by simpa using hu)
  simpa [FormatUint, parseUintLoop] using this

/-- Go's `strconv.ParseInt` reads the decimal numeral of a 64-bit integer back as that
integer. -/
theorem ParseInt_FormatInt (i : Int) (hlo : -2 ^ 63 ≤ i) (hhi : i < 2 ^ 63) :
    ParseInt (FormatInt i) = .ok i := by
  obtain ⟨ds, hds, hne, hdig⟩ := formatBits_digits i.natAbs i.natAbs []
  rw [List.append_nil] at hds
  obtain ⟨c, cs, rfl⟩ := List.exists_cons_of_ne_nil hne
  obtain ⟨d, hd, hc⟩ := hdig c (List.mem_cons_self _ _)
  have hloop := fun whole => parseUintLoop_FormatUint whole i.natAbs (by omega)
  have hdata : (FormatUint i.natAbs).data = c :: cs := hds
  by_cases hneg : i < 0
  · have hs : (FormatInt i).data = '-' :: c :: cs := by
      simp [FormatInt, hneg, hdata]
    unfold ParseInt
    simp only [hs]
    simp only [beq_self_eq_true, or_true, if_true]
    rw [← hdata, hloop]
    simp only [intSize, not_true_eq_false, false_and, if_false, true_and]
    rw [if_neg (by omega)]
    congr 1
    omega
  · have hs : (FormatInt i).data = c :: cs := by
      simp [FormatInt, hneg, hdata]
    unfold ParseInt
    simp only [hs]
    have h1 := (digitChar_not_sign d hd).1
    have h2 := (digitChar_not_sign d hd).2
    rw [← hc] at h1 h2
    simp only [h1, h2, Bool.false_eq_true, or_self, if_false]
    rw [← hdata, hloop]
    simp only [intSize, not_false_eq_true, true_and, false_and, if_false]
    rw [if_neg (by omega)]
    congr 1
    omega

/-- Go's `strings.TrimSpace` leaves the decimal numeral of an integer as it is. -/
theorem TrimSpace_FormatInt (i : Int) : TrimSpace (FormatInt i) = FormatInt i := by
  have key : ∀ l : List Char, (∀ c ∈ l, isSpace c = false) →
      ((l.dropWhile isSpace).reverse.dropWhile isSpace).reverse = l := by
    intro l hl
    have h1 : ∀ m : List Char, (∀ c ∈ m, isSpace c = false) → m.dropWhile isSpace = m := by
      intro m hm
      cases m with
      | nil => rfl
      | cons a m => simp [List.dropWhile, hm a (List.mem_cons_self _ _)]
    rw [h1 l hl, h1 l.reverse (fun c hc => hl c (List.mem_reverse.1 hc)), List.reverse_reverse]
  obtain ⟨ds, hds, _, hdig⟩ := formatBits_digits i.natAbs i.natAbs []
  rw [List.append_nil] at hds
  have hsp : ∀ c ∈ ds, isSpace c = false := by
    intro c hc
    obtain ⟨d, hd, rfl⟩ := hdig c hc
    exact digitChar_not_space d hd
  have hdata : (FormatUint i.natAbs).data = ds := hds
  apply String.ext
  by_cases hneg : i < 0
  · have hs : (FormatInt i).data = '-' :: ds := by simp [FormatInt, hneg, hdata]
    simp only [TrimSpace, hs]
    refine key _ fun c hc => ?_
    rcases List.mem_cons.1 hc with rfl | h
    · decide
    · exact hsp c h
  · have hs : (FormatInt i).data = ds := by simp [FormatInt, hneg, hdata]
    simp only [TrimSpace, hs]
    exact key _ hsp

/-! ## The XML decoder on documents -/

/-- A filler leaves a struct loop, the search for the root and `Skip` where they are. -/
theorem run_filler {t : RawToken} (ht : t.isFiller = true) (input : List RawToken)
    (stk : List String) (v : XMLResponseMobileDeviceGroups) (f : Frame) (fs : List Frame)
    (hf : (∀ dst data, f ≠ .int dst data) ∧ ∀ data, f ≠ .name data) :
    unmarshalRun (t :: input) stk v (f :: fs) = unmarshalRun input stk v (f :: fs) := by
  cases t <;> simp [RawToken.isFiller] at ht <;>
    cases f <;> simp_all [unmarshalRun, nextToken, unmarshalStep]

/-- The loop of `Skip` runs over complete nodes without leaving its depth. -/
theorem run_skip_balanced {b : List RawToken} (hb : Balanced b) :
    ∀ (rest : List RawToken) (stk : List String) (v : XMLResponseMobileDeviceGroups)
      (depth : Nat) (fs : List Frame),
      unmarshalRun (b ++ rest) stk v (.skip depth :: fs)
        = unmarshalRun rest stk v (.skip depth :: fs) := by
  induction hb with
  | nil => intros; rfl
  | filler t r ht _ ih =>
    intro rest stk v depth fs
    rw [List.cons_append, run_filler ht _ _ _ _ _ (by simp)]
    exact ih ..
  | element name content r _ _ ihc ihr =>
    intro rest stk v depth fs
    simp only [List.cons_append, List.append_assoc]
    simp only [unmarshalRun, nextToken, unmarshalStep]
    rw [ihc]
    simp only [unmarshalRun, nextToken, unmarshalStep, if_true]
    exact ihr ..

theorem setLast_append (f : MobileDevice → MobileDevice) (ds : List MobileDevice)
    (d : MobileDevice) : setLast f (ds ++ [d]) = ds ++ [f d] := by
  induction ds with
  | nil => rfl
  | cons a ds ih =>
    cases ds with
    | nil => rfl
    | cons b ds => simpa [setLast] using ih

/-- A struct loop skips a complete element whose name is none of its tags. -/
theorem run_skip_element {content : List RawToken} (hc : Balanced content) (tag : String)
    (rest : List RawToken) (stk : List String) (v : XMLResponseMobileDeviceGroups)
    (f : Frame) (fs : List Frame)
    (hstep : unmarshalStep v f fs (.StartElement tag) = .ok (v, .skip 0 :: f :: fs)) :
    unmarshalRun (.StartElement tag :: content ++ .EndElement tag :: rest) stk v (f :: fs)
      = unmarshalRun rest stk v (f :: fs) := by
  simp only [List.cons_append, unmarshalRun, nextToken, hstep]
  refine (run_skip_balanced hc _ _ _ _ _).trans ?_
  simp [unmarshalRun, nextToken, unmarshalStep]

/-- The loop of an `int` field over the text of its element, up to the end element. -/
theorem run_int {content : List RawToken} (hc : IsText content) :
    ∀ (data : String) (i : Int), copyInt (data ++ textOf content) = .ok i →
    ∀ (tag : String) (rest : List RawToken) (stk : List String)
      (v : XMLResponseMobileDeviceGroups) (dst : IntField) (fs : List Frame),
      unmarshalRun (content ++ .EndElement tag :: rest) (tag :: stk) v (.int dst data :: fs)
        = unmarshalRun rest stk (storeInt v i dst) fs := by
  induction content with
  | nil =>
    intro data i h tag rest stk v dst fs
    have h' : copyInt data = .ok i := by simpa [textOf] using h
    simp [unmarshalRun, nextToken, unmarshalStep, h']
  | cons t c ih =>
    intro data i h tag rest stk v dst fs
    have ht : t.isFiller = true := hc t (List.mem_cons_self _ _)
    have hc' : IsText c := fun x hx => hc x (List.mem_cons_of_mem _ hx)
    cases t <;> simp [RawToken.isFiller] at ht
    · rename_i s
      have h' : copyInt (data ++ s ++ textOf c) = .ok i := by
        simpa [textOf, String.append_assoc] using h
      simp only [List.cons_append, unmarshalRun, nextToken, unmarshalStep]
      exact ih hc' _ _ h' ..
    · have h' : copyInt (data ++ textOf c) = .ok i := by simpa [textOf] using h
      simp only [List.cons_append, unmarshalRun, nextToken, unmarshalStep]
      exact ih hc' _ _ h' ..

/-- The loop of the field `Name` over the text of its element, up to the end element. -/
theorem run_name {content : List RawToken} (hc : IsText content) :
    ∀ (data tag : String) (rest : List RawToken) (stk : List String)
      (v : XMLResponseMobileDeviceGroups) (fs : List Frame),
      unmarshalRun (content ++ .EndElement tag :: rest) (tag :: stk) v (.name data :: fs)
        = unmarshalRun rest stk (storeName v (data ++ textOf content)) fs := by
  induction content with
  | nil =>
    intro data tag rest stk v fs
    simp [unmarshalRun, nextToken, unmarshalStep, textOf]
  | cons t c ih =>
    intro data tag rest stk v fs
    have ht : t.isFiller = true := hc t (List.mem_cons_self _ _)
    have hc' : IsText c := fun x hx => hc x (List.mem_cons_of_mem _ hx)
    cases t <;> simp [RawToken.isFiller] at ht
    · rename_i s
      have h := ih hc' (data ++ s) tag rest stk v fs
      rw [String.append_assoc] at h
      simp only [List.cons_append, unmarshalRun, nextToken, unmarshalStep, textOf]
      exact h
    · simp only [List.cons_append, unmarshalRun, nextToken, unmarshalStep, textOf]
      exact ih hc' ..

theorem copyInt_of_readsAsInt {content : List RawToken} {i : Int} (h : ReadsAsInt content i) :
    copyInt ("" ++ textOf content) = .ok i := by
  have h2 := h.2
  unfold copyInt
  have e : ("" : String) ++ textOf content = textOf content := by simp [String.ext_iff]
  rw [e]
  split
  · rename_i hnil
    have : TrimSpace (textOf content) = "" := by
      simp [TrimSpace, hnil, String.ext_iff]
    rw [this] at h2
    simp [ParseInt] at h2
  · exact h2

theorem withDevices_self (v : XMLResponseMobileDeviceGroups) :
    withDevices v v.MobileDevices.MobileDevice = v := rfl

/-- The loop over the children of one `mobile_device`: an `id` and a `name` child overwrite
the fields of the slice's last element, everything else leaves it as it is. -/
theorem run_device {b : List RawToken} {oi : Option Int} {nm : Option String}
    (hb : DeviceContent b oi nm) :
    ∀ (rest : List RawToken) (stk : List String) (v : XMLResponseMobileDeviceGroups)
      (fs : List Frame) (ds : List MobileDevice) (d : MobileDevice),
      v.MobileDevices.MobileDevice = ds ++ [d] →
      unmarshalRun (b ++ rest) stk v (.mobileDevice :: fs)
        = unmarshalRun rest stk (withDevices v (ds ++ [⟨oi.getD d.ID, nm.getD d.Name⟩]))
            (.mobileDevice :: fs) := by
  induction hb with
  | nil =>
    intro rest stk v fs ds d hv
    simp only [Option.getD_none, List.nil_append]
    rw [← hv, withDevices_self]
  | filler t r id name ht _ ih =>
    intro rest stk v fs ds d hv
    rw [List.cons_append, run_filler ht _ _ _ _ _ (by simp)]
    exact ih _ _ _ _ _ _ hv
  | id content r i name hi _ ih =>
    intro rest stk v fs ds d hv
    simp only [List.cons_append, List.append_assoc]
    simp only [unmarshalRun, nextToken, unmarshalStep, if_true]
    refine (run_int hi.1 _ _ (copyInt_of_readsAsInt hi) _ _ _ _ _ _).trans ?_
    have hv' : (storeInt v i .deviceID).MobileDevices.MobileDevice
        = ds ++ [{ d with ID := i }] := by
      simp [storeInt, hv, setLast_append]
    refine (ih _ _ _ _ _ _ hv').trans ?_
    rfl
  | name content r id hc _ ih =>
    intro rest stk v fs ds d hv
    have hne : ("name" = "id") = False := by decide
    simp only [List.cons_append, List.append_assoc]
    simp only [unmarshalRun, nextToken, unmarshalStep, if_true, hne, if_false]
    refine (run_name hc _ _ _ _ _ _).trans ?_
    have e : ("" : String) ++ textOf content = textOf content := by simp [String.ext_iff]
    have hv' : (storeName v ("" ++ textOf content)).MobileDevices.MobileDevice
        = ds ++ [{ d with Name := textOf content }] := by
      simp [storeName, hv, setLast_append, e]
    refine (ih _ _ _ _ _ _ hv').trans ?_
    rfl
  | other tag content r id name h1 h2 hc _ ih =>
    intro rest stk v fs ds d hv
    simp only [List.cons_append, List.append_assoc]
    have := run_skip_element hc tag (r ++ rest) stk v .mobileDevice fs
      (by simp [unmarshalStep, h1, h2])
    simp only [List.cons_append] at this
    rw [this]
    exact ih _ _ _ _ _ _ hv

/-- The loop over the children of `mobile_devices`: every `mobile_device` child appends its
device to the slice. -/
theorem run_devices {b : List RawToken} {ds' : List MobileDevice}
    (hb : DevicesContent b ds') :
    ∀ v : XMLResponseMobileDeviceGroups, ∃ v' : XMLResponseMobileDeviceGroups,
      v'.MobileDevices.MobileDevice = v.MobileDevices.MobileDevice ++ ds' ∧
      ∀ (rest : List RawToken) (stk : List String) (fs : List Frame),
        unmarshalRun (b ++ rest) stk v (.mobileDevices :: fs)
          = unmarshalRun rest stk v' (.mobileDevices :: fs) := by
  induction hb with
  | nil => intro v; exact ⟨v, by simp, fun _ _ _ => rfl⟩
  | filler t r ds ht _ ih =>
    intro v
    obtain ⟨v', hv', hrun⟩ := ih v
    refine ⟨v', hv', fun rest stk fs => ?_⟩
    rw [List.cons_append, run_filler ht _ _ _ _ _ (by simp)]
    exact hrun ..
  | size content r n ds hn _ ih =>
    intro v
    obtain ⟨v', hv', hrun⟩ := ih (storeInt v n .size)
    refine ⟨v', by simpa [storeInt] using hv', fun rest stk fs => ?_⟩
    simp only [List.cons_append, List.append_assoc]
    simp only [unmarshalRun, nextToken, unmarshalStep, if_true]
    refine (run_int hn.1 _ _ (copyInt_of_readsAsInt hn) _ _ _ _ _ _).trans ?_
    exact hrun ..
  | device content r i name ds hd _ ih =>
    intro v
    obtain ⟨v', hv', hrun⟩ := ih (withDevices (growSlice v)
      (v.MobileDevices.MobileDevice ++ [⟨i, name⟩]))
    refine ⟨v', by simpa [withDevices] using hv', fun rest stk fs => ?_⟩
    have hne : ("mobile_device" = "size") = False := by decide
    simp only [List.cons_append, List.append_assoc]
    simp only [unmarshalRun, nextToken, unmarshalStep, if_true, hne, if_false]
    refine (run_device hd _ _ _ _ v.MobileDevices.MobileDevice ⟨0, ""⟩ rfl).trans ?_
    simp only [Option.getD_some, unmarshalRun, nextToken, unmarshalStep, if_true]
    exact hrun ..
  | other tag content r ds h1 h2 hc _ ih =>
    intro v
    obtain ⟨v', hv', hrun⟩ := ih v
    refine ⟨v', hv', fun rest stk fs => ?_⟩
    simp only [List.cons_append, List.append_assoc]
    have := run_skip_element hc tag (r ++ rest) stk v .mobileDevices fs
      (by simp [unmarshalStep, h1, h2])
    simp only [List.cons_append] at this
    rw [this]
    exact hrun ..

/-- The loop over the children of the root: every `mobile_devices` child appends its devices. -/
theorem run_group {b : List RawToken} {ds' : List MobileDevice} (hb : GroupContent b ds') :
    ∀ v : XMLResponseMobileDeviceGroups, ∃ v' : XMLResponseMobileDeviceGroups,
      v'.MobileDevices.MobileDevice = v.MobileDevices.MobileDevice ++ ds' ∧
      ∀ (rest : List RawToken) (stk : List String) (fs : List Frame),
        unmarshalRun (b ++ rest) stk v (.group :: fs)
          = unmarshalRun rest stk v' (.group :: fs) := by
  induction hb with
  | nil => intro v; exact ⟨v, by simp, fun _ _ _ => rfl⟩
  | filler t r ds ht _ ih =>
    intro v
    obtain ⟨v', hv', hrun⟩ := ih v
    refine ⟨v', hv', fun rest stk fs => ?_⟩
    rw [List.cons_append, run_filler ht _ _ _ _ _ (by simp)]
    exact hrun ..
  | id content r n ds hn _ ih =>
    intro v
    obtain ⟨v', hv', hrun⟩ := ih (storeInt v n .groupID)
    refine ⟨v', by simpa [storeInt] using hv', fun rest stk fs => ?_⟩
    simp only [List.cons_append, List.append_assoc]
    simp only [unmarshalRun, nextToken, unmarshalStep, if_true]
    refine (run_int hn.1 _ _ (copyInt_of_readsAsInt hn) _ _ _ _ _ _).trans ?_
    exact hrun ..
  | devices content r ds ds2 hd _ ih =>
    intro v
    obtain ⟨v1, hv1, hrun1⟩ := run_devices hd v
    obtain ⟨v', hv', hrun⟩ := ih v1
    refine ⟨v', by rw [hv', hv1, List.append_assoc], fun rest stk fs => ?_⟩
    have hne : ("mobile_devices" = "id") = False := by decide
    simp only [List.cons_append, List.append_assoc]
    simp only [unmarshalRun, nextToken, unmarshalStep, if_true, hne, if_false]
    refine (hrun1 _ _ _).trans ?_
    simp only [unmarshalRun, nextToken, unmarshalStep, if_true]
    exact hrun ..
  | other tag content r ds h1 h2 hc _ ih =>
    intro v
    obtain ⟨v', hv', hrun⟩ := ih v
    refine ⟨v', hv', fun rest stk fs => ?_⟩
    simp only [List.cons_append, List.append_assoc]
    have := run_skip_element hc tag (r ++ rest) stk v .group fs
      (by simp [unmarshalStep, h1, h2])
    simp only [List.cons_append] at this
    rw [this]
    exact hrun ..

/-- The search for the root element passes over fillers. -/
theorem run_prolog {p : List RawToken} (hp : IsText p) (rest : List RawToken)
    (stk : List String) (v : XMLResponseMobileDeviceGroups) (fs : List Frame) :
    unmarshalRun (p ++ rest) stk v (.findStart :: fs)
      = unmarshalRun rest stk v (.findStart :: fs) := by
  induction p with
  | nil => rfl
  | cons t p ih =>
    rw [List.cons_append, run_filler (hp t (List.mem_cons_self _ _)) _ _ _ _ _ (by simp)]
    exact ih fun x hx => hp x (List.mem_cons_of_mem _ hx)

/-- The decoder `xml.Unmarshal` on a group document: no error, and the slice holds the devices of the
document, in document order. -/
theorem xmlUnmarshal_document {body : List RawToken} {ds : List MobileDevice}
    (h : IsGroupDocument body ds) :
    (xmlUnmarshal body zeroGroup).2 = none ∧
      (xmlUnmarshal body zeroGroup).1.MobileDevices.MobileDevice = ds := by
  obtain ⟨prolog, content, trailer, rfl, hp, hc⟩ := h
  obtain ⟨v', hv', hrun⟩ := run_group hc { zeroGroup with XMLName := "mobile_device_group" }
  have : xmlUnmarshal (prolog ++ .StartElement "mobile_device_group" :: content
      ++ .EndElement "mobile_device_group" :: trailer) zeroGroup = (v', none) := by
    unfold xmlUnmarshal
    rw [List.append_assoc, run_prolog hp]
    simp only [List.cons_append, unmarshalRun, nextToken, unmarshalStep, if_true]
    refine (hrun _ _ _).trans ?_
    simp [unmarshalRun, nextToken, unmarshalStep]
  rw [this]
  exact ⟨rfl, by simpa [zeroGroup] using hv'⟩


/-! ## Token and group listing -/

/-- The operation `GetTokenURL` in terms of its transport and the decoder. -/
theorem GetTokenURL_eq (lib : Stdlib) (j : Client) :
    GetTokenURL lib j = (j,
      match readBody lib j "POST" (tokenURL j) with
      | .error err => .returned ("", some err)
      | .ok body =>
        match jsonUnmarshal body.json { Token := "", Expires := 0 } with
        | (_, some err) => .panicked err
        | (tokenResponse, none) => .returned (tokenResponse.Token, none)) := by
  unfold GetTokenURL readBody roundTrip
  simp only [Sprintf_tokenURL]
  cases h : NewRequest lib "POST" (tokenURL j) with
  | error err => rfl
  | ok req =>
    cases h2 : j.httpClient (req.SetBasicAuth j.usr j.pw) with
    | error err => simp only [h2]
    | ok resp =>
      simp only [h2]
      cases h3 : resp.Body with
      | error err => rfl
      | ok body =>
        simp only []
        rcases h4 : jsonUnmarshal body.json { Token := "", Expires := 0 } with ⟨tb, _ | err⟩ <;>
          rfl

/-- The operation `GetDevicesInGroup` in terms of its transport and the decoder. -/
theorem GetDevicesInGroup_eq (lib : Stdlib) (j : Client) (g : String) :
    GetDevicesInGroup lib j g = (j,
      match readBody lib j "GET" (groupURL j g) with
      | .error err => ([], some err)
      | .ok body => ((xmlUnmarshal body.xml zeroGroup).1.MobileDevices.MobileDevice, none)) := by
  unfold GetDevicesInGroup readBody roundTrip
  simp only [Sprintf_groupURL]
  cases h : NewRequest lib "GET" (groupURL j g) with
  | error err => rfl
  | ok req =>
    cases h2 : j.httpClient (req.SetBasicAuth j.usr j.pw) with
    | error err => simp only [h2]
    | ok resp =>
      simp only [h2]
      cases h3 : resp.Body with
      | error err => rfl
      | ok body => rfl

/-- The operation `RestartDevice` in terms of its transport. -/
theorem RestartDevice_eq (lib : Stdlib) (j : Client) (d : Int) :
    RestartDevice lib j d = (j,
      match roundTrip lib j "POST" (restartURL j d) with
      | .error err => (500, some err)
      | .ok resp => (resp.StatusCode, none)) := by
  unfold RestartDevice roundTrip
  simp only [Sprintf_restartURL]
  cases h : NewRequest lib "POST" (restartURL j d) with
  | error err => rfl
  | ok req =>
    cases h2 : j.httpClient (req.SetBasicAuth j.usr j.pw) with
    | error err => simp only [h2]
    | ok resp => simp only [h2]

/-- C8: when the transport fails with `e` (in the construction of the request, in the send
or in the read of the body), `GetTokenURL` returns the empty string together with `e`, and
`GetDevicesInGroup` returns the nil slice together with `e`. -/
theorem transport_failure_is_returned (lib : Stdlib) (j : Client) (g : String) (e : GoError) :
    (readBody lib j "POST" (tokenURL j) = .error e →
        (GetTokenURL lib j).2 = .returned ("", some e)) ∧
    (readBody lib j "GET" (groupURL j g) = .error e →
        (GetDevicesInGroup lib j g).2 = ([], some e)) := by
  constructor
  · intro h; rw [GetTokenURL_eq, h]
  · intro h; rw [GetDevicesInGroup_eq, h]

/-- The three failures: a URL that does not parse, a send that fails, a body that cannot be
read. -/
theorem transport_failure_is_returned_witness :
    ((GetTokenURL noURL (answering ⟨200, .ok garbage⟩)).2
        = .returned ("", some ⟨"parse: invalid URL"⟩) ∧
      (GetDevicesInGroup noURL (answering ⟨200, .ok garbage⟩) "7").2
        = ([], some ⟨"parse: invalid URL"⟩)) ∧
    ((GetTokenURL anyURL (unreachable ⟨"timeout"⟩)).2 = .returned ("", some ⟨"timeout"⟩) ∧
      (GetDevicesInGroup anyURL (unreachable ⟨"timeout"⟩) "7").2 = ([], some ⟨"timeout"⟩)) ∧
    ((GetTokenURL anyURL (answering ⟨200, .error ⟨"unexpected EOF"⟩⟩)).2
        = .returned ("", some ⟨"unexpected EOF"⟩) ∧
      (GetDevicesInGroup anyURL (answering ⟨200, .error ⟨"unexpected EOF"⟩⟩) "7").2
        = ([], some ⟨"unexpected EOF"⟩)) :=
  ⟨⟨(transport_failure_is_returned noURL _ "7" _).1 rfl,
    (transport_failure_is_returned noURL _ "7" _).2 rfl⟩,
   ⟨(transport_failure_is_returned anyURL _ "7" _).1 rfl,
    (transport_failure_is_returned anyURL _ "7" _).2 rfl⟩,
   ⟨(transport_failure_is_returned anyURL _ "7" _).1 rfl,
    (transport_failure_is_returned anyURL _ "7" _).2 rfl⟩⟩

/-- C9: `GetTokenURL` panics exactly when the transport succeeded and `json.Unmarshal` reports
an error on the body, and it panics with that error; in every other case it returns. -/
theorem GetTokenURL_panics_iff (lib : Stdlib) (j : Client) :
    (∀ e, (GetTokenURL lib j).2 = .panicked e ↔
      ∃ body, readBody lib j "POST" (tokenURL j) = .ok body ∧
        (jsonUnmarshal body.json { Token := "", Expires := 0 }).2 = some e) ∧
    ((∃ r, (GetTokenURL lib j).2 = .returned r) ↔
      ¬ ∃ body e, readBody lib j "POST" (tokenURL j) = .ok body ∧
        (jsonUnmarshal body.json { Token := "", Expires := 0 }).2 = some e) := by
  rw [GetTokenURL_eq]
  cases h : readBody lib j "POST" (tokenURL j) with
  | error err => simp
  | ok body =>
    rcases h4 : jsonUnmarshal body.json { Token := "", Expires := 0 } with ⟨tb, _ | err⟩
    · simp [h4]
    · simp [h4]

/-- C10: no operation changes the client: the client after `GetTokenURL`, `GetDevicesInGroup`,
`RestartDevice` and `RestartDeviceChannel` is the client before, on every path; the client
made by `NewJamfClient` holds the base URL, the user name, the password and the empty token
after `GetTokenURL` as before, also when a token was returned. -/
theorem client_unchanged (lib : Stdlib) (j : Client) (g : String) (d : Int)
    (dev : MobileDevice) (c : Chan) (net : Request → Except GoError Response)
    (u n p : String) :
    (GetTokenURL lib j).1 = j ∧ (GetDevicesInGroup lib j g).1 = j ∧
    (RestartDevice lib j d).1 = j ∧ (RestartDeviceChannel lib j dev c).1 = j ∧
    (GetTokenURL lib (NewJamfClient net u n p)).1.BaseURL = u ∧
    (GetTokenURL lib (NewJamfClient net u n p)).1.usr = n ∧
    (GetTokenURL lib (NewJamfClient net u n p)).1.pw = p ∧
    (GetTokenURL lib (NewJamfClient net u n p)).1.token = "" := by
  simp only [GetTokenURL_eq, GetDevicesInGroup_eq, RestartDevice_eq, RestartDeviceChannel_eq,
    NewJamfClient, and_self]


/-! ## The token body -/

theorem findField_other {key : String} (h1 : foldName key ≠ "TOKEN")
    (h2 : foldName key ≠ "EXPIRES") : findField key = none := by
  have e1 : foldName "Token" = "TOKEN" := by decide
  have e2 : foldName "Expires" = "EXPIRES" := by decide
  have k1 : key ≠ "Token" := fun h => h1 (h ▸ e1)
  have k2 : key ≠ "Expires" := fun h => h2 (h ▸ e2)
  simp [findField, e1, e2, h1, h2, k1, k2]

/-- The member loop on a token object stores the string of `Token` and the value of
`Expires`, and saves no error. -/
theorem decodeObject_tokenObject {members : List (String × JSON)} {tok : Option String}
    {exp : Option Int} (h : TokenObject members tok exp) :
    ∀ tb : tokenBody, decodeObject members tb none
      = ({ Token := tok.getD tb.Token, Expires := exp.getD tb.Expires }, none) := by
  induction h with
  | nil => intro tb; rfl
  | other key val rest tok exp h1 h2 _ ih =>
    intro tb
    simp only [decodeObject, findField_other h1 h2]
    exact ih tb
  | token s rest exp _ ih =>
    intro tb
    have e : findField "Token" = some .Token := by decide
    simp only [decodeObject, e, storeField, Option.orElse]
    exact ih _
  | expires literal n rest tok hl hn _ ih =>
    intro tb
    have e : findField "Expires" = some .Expires := by decide
    have hp : ParseInt literal = .ok n := by
      rcases hl with rfl | ⟨rfl, rfl⟩
      · exact ParseInt_FormatInt n hn.1 hn.2
      · rfl
    simp only [decodeObject, e, storeField, hp, Option.orElse]
    exact ih _

/-- C7, as amended: when the body passes the syntax check of `encoding/json` and is an object
with one member named `Token` that is a string, one member named `Expires` that is a number
written as an integer (an optional minus sign and digits, no fraction, no exponent) within the
range of Go's 64-bit `int`, and otherwise only members whose name is not `Token` or `Expires`
in any case of its letters, `GetTokenURL` returns the string of `Token` and a nil error,
whatever that integer is. -/
theorem GetTokenURL_returns_token (lib : Stdlib) (j : Client) (body : Payload)
    (members : List (String × JSON)) (s : String) (n : Int)
    (hbody : readBody lib j "POST" (tokenURL j) = .ok body)
    (hjson : body.json = .ok (.object members))
    (hobj : TokenObject members (some s) (some n)) :
    (GetTokenURL lib j).2 = .returned (s, none) := by
  rw [GetTokenURL_eq, hbody]
  simp only [hjson, jsonUnmarshal, decodeObject_tokenObject hobj, Option.getD_some]

/-- The body `\x7b"Token":"abc","Expires":3600\x7d` gives the token `abc`. -/
theorem GetTokenURL_returns_token_witness :
    (GetTokenURL anyURL (answering ⟨200, .ok tokenPayload⟩)).2 = .returned ("abc", none) :=
  GetTokenURL_returns_token anyURL (answering ⟨200, .ok tokenPayload⟩) tokenPayload _ "abc" 3600
    rfl rfl (.token "abc" _ _ (.expires "3600" 3600 _ _ (.inl (by decide))
      ⟨by decide, by decide⟩ .nil))

/-- C7, as stated, fails: on the body `\x7b"Token":"abc","Expires":9223372036854775808\x7d`, a
JSON object with a string `Token` and an integer `Expires`, `GetTokenURL` returns no token but
panics, because the integer does not fit the field of type `int`; and it panics on the body
`\x7b"Token":"abc","Expires":3600.0\x7d`, whose `Expires` is the integer 3600 written with a
fraction. -/
theorem GetTokenURL_large_expires :
    FormatInt (2 ^ 63) = "9223372036854775808" ∧
      (∃ e, (GetTokenURL anyURL (answering ⟨200, .ok largeExpiresPayload⟩)).2 = .panicked e) ∧
      ∃ e, (GetTokenURL anyURL (answering ⟨200, .ok fractionExpiresPayload⟩)).2
        = .panicked e :=
  ⟨by decide, ⟨⟨"json: cannot unmarshal number 9223372036854775808 into Go struct field "
    ++ "tokenBody.Expires of type int"⟩, by decide⟩,
   ⟨"json: cannot unmarshal number 3600.0 into Go struct field "
    ++ "tokenBody.Expires of type int"⟩, by decide⟩

/-! ## Group listing -/

theorem isText_single (s : String) : IsText [.CharData s] := by
  intro t ht
  simp only [List.mem_singleton] at ht
  rw [ht]; rfl

theorem deviceContent_pair (id name : String) (i : Int)
    (h : ParseInt (TrimSpace id) = .ok i) :
    DeviceContent (textElement "id" id ++ textElement "name" name) (some i) (some name) := by
  have hn : textOf [.CharData name] = name := by simp [textOf, String.ext_iff]
  have h2 := DeviceContent.name [.CharData name] [] none (isText_single name) .nil
  rw [hn] at h2
  exact DeviceContent.id [.CharData id] (textElement "name" name) i (some name)
    ⟨isText_single id, by simpa [textOf, String.ext_iff] using h⟩ h2

theorem readsAsInt_FormatInt (i : Int) (h : IsGoInt i) :
    ReadsAsInt [.CharData (FormatInt i)] i := by
  refine ⟨isText_single _, ?_⟩
  have e : textOf [.CharData (FormatInt i)] = FormatInt i := by
    simp [textOf, String.ext_iff]
  rw [e, TrimSpace_FormatInt]
  exact ParseInt_FormatInt i h.1 h.2

theorem devicesContent_render (ds : List MobileDevice) (h : ∀ d ∈ ds, IsGoInt d.ID) :
    DevicesContent (renderDevices ds) ds := by
  induction ds with
  | nil => exact .nil
  | cons d ds ih =>
    have hd := h d (List.mem_cons_self _ _)
    have ih' := ih fun x hx => h x (List.mem_cons_of_mem _ hx)
    have hc : DeviceContent (textElement "id" (FormatInt d.ID) ++ textElement "name" d.Name)
        (some d.ID) (some d.Name) :=
      deviceContent_pair _ _ _ (by rw [TrimSpace_FormatInt]; exact ParseInt_FormatInt _ hd.1 hd.2)
    have := DevicesContent.device _ _ d.ID d.Name ds hc ih'
    simpa [deviceElement, renderDevices] using this

/-- The rendered document of a group is a group document with the devices of the group. -/
theorem renderGroup_isGroupDocument (id : Int) (ds : List MobileDevice) (hid : IsGoInt id)
    (hlen : IsGoInt ds.length) (hds : ∀ d ∈ ds, IsGoInt d.ID) :
    IsGroupDocument (renderGroup id ds) ds := by
  refine ⟨[], textElement "id" (FormatInt id)
    ++ .StartElement "mobile_devices" :: textElement "size" (FormatInt ds.length)
    ++ renderDevices ds
    ++ [RawToken.EndElement "mobile_devices"], [], ?_, (fun _ h => nomatch h), ?_⟩
  · simp [renderGroup]
  · refine GroupContent.id [.CharData (FormatInt id)] _ id _ (readsAsInt_FormatInt id hid) ?_
    have h1 := DevicesContent.size [.CharData (FormatInt ds.length)] _ ds.length ds
      (readsAsInt_FormatInt _ hlen) (devicesContent_render ds hds)
    have h2 := GroupContent.devices _ [] ds [] h1 .nil
    simpa [textElement] using h2

/-- The listing of a rendered group: whatever the number of devices, their ids (within `int`)
and their names, `GetDevicesInGroup` returns exactly the devices of the group, in order. -/
theorem GetDevicesInGroup_renderGroup (lib : Stdlib) (j : Client) (g : String) (body : Payload)
    (id : Int) (ds : List MobileDevice) (hid : IsGoInt id) (hlen : IsGoInt ds.length)
    (hds : ∀ d ∈ ds, IsGoInt d.ID)
    (hbody : readBody lib j "GET" (groupURL j g) = .ok body)
    (hxml : body.xml = renderGroup id ds) :
    (GetDevicesInGroup lib j g).2 = (ds, none) := by
  rw [GetDevicesInGroup_eq, hbody]
  simp only [(xmlUnmarshal_document (hxml ▸ renderGroup_isGroupDocument id ds hid hlen hds)).2]

/-- The token `abc` is returned and the client keeps its empty token. -/
theorem client_unchanged_witness :
    (GetTokenURL anyURL (NewJamfClient (fun _ => .ok ⟨200, .ok tokenPayload⟩)
        "https://jamf.example" "admin" "secret")).2 = .returned ("abc", none) ∧
      (GetTokenURL anyURL (NewJamfClient (fun _ => .ok ⟨200, .ok tokenPayload⟩)
        "https://jamf.example" "admin" "secret")).1.token = "" :=
  ⟨by decide, (client_unchanged anyURL (answering ⟨200, .ok garbage⟩) "7" 1 ⟨1, "x"⟩ []
    (fun _ => .ok ⟨200, .ok tokenPayload⟩) "https://jamf.example" "admin" "secret").2.2.2.2.2.2.2⟩

end Jamf
